import Mathlib

/-!
Shallow embedding of the command-line specification and argument-parsing
engine of `src/cli.py`, together with theorems about its behaviour.

Python attributes (`_name`, `_short`, ...) become structure fields of the
same name; accessor methods (`name()`, `is_optional()`, ...) become Lean
defs; builder methods that `raise` become functions into `Except SpecErr`;
the parser, which raises `ValueError` and lets `KeyboardInterrupt` and
`InterruptedError` escape, returns `Except PExn`.  Caller-supplied
value-conversion functions are modelled as `String → ConvRes`, where
`ConvRes` distinguishes a normal result, a cancellation-type interrupt,
and an ordinary exception carrying its message.
-/

namespace Cli

/-! ## Python string primitives

Structural (kernel-computable) models of the `str` methods the code uses:
`strip`, `lower`, `startswith`, `split("=", 1)`. -/

/-- Python `s.strip()`: remove leading and trailing whitespace. -/
def pyStrip (s : String) : String :=
  String.mk (((s.data.dropWhile Char.isWhitespace).reverse.dropWhile Char.isWhitespace).reverse)

/-- Python `s.lower()` (ASCII case folding suffices for this model). -/
def pyLower (s : String) : String :=
  String.mk (s.data.map Char.toLower)

/-- Python `s.startswith(p)`. -/
def pyStartsWith (s p : String) : Bool :=
  p.data.isPrefixOf s.data

/-- Helper for `split("=", 1)`: the characters before the first `'='` and,
when one occurs, those after it. -/
def breakEq : List Char → List Char × Option (List Char)
  | [] => ([], Option.none)
  | c :: rest =>
    if c == '=' then ([], some rest)
    else
      let r := breakEq rest
      (c :: r.1, r.2)

/-- Python `s.split("=", 1)`: the part before the first `=`, and the
remainder after it when one exists. -/
def splitEq1 (s : String) : String × Option String :=
  let r := breakEq s.data
  (String.mk r.1, r.2.map String.mk)

/-- Runtime values stored in the result namespace: Python `None`, bools,
ints, strings, lists (`value`-kind flags accumulate lists), mirroring the
heterogeneous values of `SimpleNamespace`. -/
inductive Value where
  | none
  | bool (b : Bool)
  | int (n : Int)
  | str (s : String)
  | list (vs : List Value)

/-- Python truthiness of a `Value` (used by `print_help`'s `if default:`). -/
def Value.truthy : Value → Bool
  | .none => false
  | .bool b => b
  | .int n => n != 0
  | .str s => !s.data.isEmpty
  | .list vs => !vs.isEmpty

/-- The `_kind` attribute of a `Flag`: `"value"`, `"count"` or `"present"`. -/
inductive FlagKind where
  | value
  | count
  | present
deriving DecidableEq, Repr

/-- Outcome of a caller-supplied value-conversion function: a value, a
cancellation-type interrupt (`KeyboardInterrupt`/`InterruptedError`), or an
ordinary exception with its message. -/
inductive ConvRes where
  | ok (v : Value)
  | interrupt
  | exn (msg : String)

/-- Spec-construction errors (`ValueError`s raised by the builder methods). -/
inductive SpecErr where
  | emptyName
  | shortStartsDoubleDash
  | shortMissingDash
  | shortWrongLength
  | longMissingDashes
  | longEmpty
  | duplicateItemName (name : String)
  | flagNeedsAlias
  | optionalParamsMustBeLast
deriving DecidableEq, Repr

/-- `class Flag` of `src/cli.py` (the `_parser` attribute is named
`_parserFn` here). -/
structure Flag where
  _name : String
  _description : Option String
  _required : Bool
  _short : List String
  _long : List String
  _parserFn : Option (String → ConvRes)
  _kind : FlagKind
  _default : Value

/-- `class Param` of `src/cli.py`. -/
structure Param where
  _name : String
  _description : Option String
  _required : Bool
  _parserFn : Option (String → ConvRes)
  _default : Value

/-- `class Command` of `src/cli.py`. -/
structure Command where
  _name : String
  _description : Option String
  _short : List String
  _long : List String
  _disable_name : Bool
  _flags : List Flag
  _params : List Param

def Flag.name (f : Flag) : String := f._name

def Flag.is_optional (f : Flag) : Bool := !f._required

def Flag.is_required (f : Flag) : Bool := f._required

def Flag.kind (f : Flag) : FlagKind := f._kind

def Flag.get_short (f : Flag) : List String := f._short

def Flag.get_long (f : Flag) : List String := f._long

def Flag.get_default (f : Flag) : Value := f._default

def Param.name (p : Param) : String := p._name

def Param.is_optional (p : Param) : Bool := !p._required

def Param.get_default (p : Param) : Value := p._default

def Command.name (c : Command) : String := c._name

def Command.flags (c : Command) : List Flag := c._flags

def Command.params (c : Command) : List Param := c._params

def Command.disable_name (c : Command) : Bool := c._disable_name

def Command.get_short (c : Command) : List String := c._short

def Command.get_long (c : Command) : List String := c._long

/-- `Command.__init__`: rejects a name that is empty after stripping, then
stores the name as given (note: unlike `Flag`/`Param`, NOT stripped). -/
def Command.init (name : String) (description : Option String) : Except SpecErr Command :=
  if (pyStrip name).data.isEmpty then .error .emptyName
  else .ok { _name := name, _description := description, _short := [], _long := [],
             _disable_name := false, _flags := [], _params := [] }

/-- `Flag.__init__`: strips the name, rejects it if empty. -/
def Flag.init (name : String) (description : Option String) : Except SpecErr Flag :=
  let name := pyStrip name
  if name.data.isEmpty then .error .emptyName
  else .ok { _name := name, _description := description, _required := false, _short := [],
             _long := [], _parserFn := .none, _kind := .present, _default := .none }

/-- `Param.__init__`: strips the name, rejects it if empty. -/
def Param.init (name : String) (description : Option String) : Except SpecErr Param :=
  let name := pyStrip name
  if name.data.isEmpty then .error .emptyName
  else .ok { _name := name, _description := description, _required := true,
             _parserFn := .none, _default := .none }

/-- `Command.long`: strips, requires the `--` prefix, appends.  (No length
check, in contrast with `Flag.long`.) -/
def Command.long (c : Command) (l : String) : Except SpecErr Command :=
  let l := pyStrip l
  if !(pyStartsWith l "--") then .error .longMissingDashes
  else .ok { c with _long := c._long ++ [l] }

/-- `Command.short`: strips, rejects `--`-prefixed, requires `-` prefix and
length exactly 2, appends. -/
def Command.short (c : Command) (s : String) : Except SpecErr Command :=
  let s := pyStrip s
  if pyStartsWith s "--" then .error .shortStartsDoubleDash
  else if !(pyStartsWith s "-") then .error .shortMissingDash
  else if s.length != 2 then .error .shortWrongLength
  else .ok { c with _short := c._short ++ [s] }

/-- `Flag.long`: strips, requires the `--` prefix, rejects length exactly 2
("long-flag must not be empty"), appends. -/
def Flag.long (f : Flag) (n : String) : Except SpecErr Flag :=
  let n := pyStrip n
  if !(pyStartsWith n "--") then .error .longMissingDashes
  else if n.length == 2 then .error .longEmpty
  else .ok { f with _long := f._long ++ [n] }

/-- `Flag.short`: strips, rejects `--`-prefixed, requires `-` prefix and
length exactly 2, appends. -/
def Flag.short (f : Flag) (n : String) : Except SpecErr Flag :=
  let n := pyStrip n
  if pyStartsWith n "--" then .error .shortStartsDoubleDash
  else if !(pyStartsWith n "-") then .error .shortMissingDash
  else if n.length != 2 then .error .shortWrongLength
  else .ok { f with _short := f._short ++ [n] }

/-- The `_name` of a `Union[Flag, Param]` argument (`arg._name` in Python). -/
def argName : Flag ⊕ Param → String
  | .inl f => f._name
  | .inr p => p._name

/-- `Command.arg`: duplicate-name checks over flags then params; a `Flag`
needs at least one alias; a required `Param` may not follow an optional
one (the code inspects only the LAST param); then appends. -/
def Command.arg (c : Command) (a : Flag ⊕ Param) : Except SpecErr Command :=
  if c._flags.any (fun flag => flag._name == argName a) then
    .error (.duplicateItemName (argName a))
  else if c._params.any (fun p => p._name == argName a) then
    .error (.duplicateItemName (argName a))
  else
    match a with
    | .inl flag =>
      if flag._short.length + flag._long.length == 0 then .error .flagNeedsAlias
      else .ok { c with _flags := c._flags ++ [flag] }
    | .inr p =>
      if p._required && (match c._params.getLast? with
                         | some q => q.is_optional
                         | Option.none => false) then
        .error .optionalParamsMustBeLast
      else .ok { c with _params := c._params ++ [p] }

/-! ## The result namespace

`SimpleNamespace` is modelled as an insertion-ordered association list;
`setattr` overwrites in place or appends, exactly like attribute
assignment. -/

/-- The attribute map of the Python `SimpleNamespace` holding parsed values. -/
abbrev Values := List (String × Value)

/-- `hasattr(values, n)`. -/
def hasattr (vs : Values) (n : String) : Bool :=
  vs.any (fun kv => kv.1 == n)

/-- `getattr(values, n)` as an `Option`. -/
def lookupVal (vs : Values) (n : String) : Option Value :=
  (vs.find? (fun kv => kv.1 == n)).map Prod.snd

/-- `getattr(values, n, d)`. -/
def getattrD (vs : Values) (n : String) (d : Value) : Value :=
  (lookupVal vs n).getD d

/-- `setattr(values, n, v)`: replace in place if the key exists, else append. -/
def setattr (vs : Values) (n : String) (v : Value) : Values :=
  match vs with
  | [] => [(n, v)]
  | (k, w) :: rest => if k == n then (k, v) :: rest else (k, w) :: setattr rest n v

/-- `class Args` of `src/cli.py` (the parse result). -/
structure Args where
  _command : String
  _values : Values

def Args.command (a : Args) : String := a._command

def Args.values (a : Args) : Values := a._values

/-! ## Parse errors -/

/-- The `ValueError`s raised during `parse_args`, one constructor per raise
site, carrying the data interpolated into the Python message. -/
inductive ParseErr where
  | noCommand
  | unknownCommand (tok : String)
  | unknownFlag (cmd : String) (flagName : String)
  | valueNotAccepted (cmd : String) (flagName : String)
  | missingValue (cmd : String) (flagName : String)
  | invalidArgument (cmd : String) (ctx : String) (cause : String)
  | duplicateFlag (cmd : String) (flagName : String)
  | unexpectedPositional (cmd : String) (tok : String)
  | missingRequiredPositional (paramName : String)
  | missingRequiredFlags (names : List String)
  | invalidDashArgument
deriving DecidableEq, Repr

/-- Everything `parse_args` can raise: a cancellation-type interrupt
propagating out of a conversion function, a non-`ValueError` Python error
(`TypeError`/`AttributeError`, reachable only on malformed specs), or one
of the engine's own `ValueError`s. -/
inductive PExn where
  | interrupt
  | pyError
  | err (e : ParseErr)
deriving DecidableEq, Repr

/-! ## The parser engine -/

/-- Parser state of `_ArgParse`: token cursor, next-expected-positional
index, the growing value namespace, and the working set of required flag
names (an insertion-ordered, duplicate-free list standing for the Python
`set`). -/
structure PState where
  idx : Nat
  paramIdx : Nat
  values : Values
  requiredFlags : List String

/-- The repeated `try: value = parser(value) except (InterruptedError,
KeyboardInterrupt): raise except Exception as err: raise ValueError(...)`
pattern: no conversion function leaves the raw string; an interrupt
propagates unchanged; other exceptions are wrapped by `wrap` with their
message. -/
def applyConv (fn : Option (String → ConvRes)) (s : String) (wrap : String → ParseErr) :
    Except PExn Value :=
  match fn with
  | .none => .ok (.str s)
  | .some p =>
    match p s with
    | .ok v => .ok v
    | .interrupt => .error .interrupt
    | .exn m => .error (.err (wrap m))

/-- Record a value under a `value`-kind flag's name: append to the existing
list, or start a fresh one-element list (`_parse_long`/`_parse_short`).
A non-list under the name (impossible for well-formed commands) is the
Python `AttributeError`. -/
def appendFlagValue (vs : Values) (n : String) (v : Value) : Except PExn Values :=
  if hasattr vs n then
    match lookupVal vs n with
    | some (.list l) => .ok (setattr vs n (.list (l ++ [v])))
    | _ => .error .pyError
  else .ok (setattr vs n (.list [v]))

/-- `count`-kind handling: `setattr(values, name, getattr(values, name, 0) + 1)`.
Python `True + 1 = 2`; a non-integer under the name (impossible for
well-formed commands) is the Python `TypeError`. -/
def countIncr (vs : Values) (n : String) : Except PExn Values :=
  match getattrD vs n (.int 0) with
  | .int k => .ok (setattr vs n (.int (k + 1)))
  | .bool b => .ok (setattr vs n (.int (if b then 2 else 1)))
  | _ => .error .pyError

/-- `_ArgParse._find_long_flag`: first declared flag one of whose long
aliases equals the token. -/
def _find_long_flag (command : Command) (val : String) : Option Flag :=
  command._flags.find? (fun flag => flag._long.any (fun fl => fl == val))

/-- `_ArgParse._find_short_flag`: first declared flag one of whose short
aliases equals the derived `-c` name. -/
def _find_short_flag (command : Command) (flag_name : String) : Option Flag :=
  command._flags.find? (fun flag => flag._short.any (fun s => s == flag_name))

/-- `_ArgParse._parse_long`, lines 288-335 of `src/cli.py`. -/
def _parse_long (command : Command) (argv : List String) (st : PState) (arg_value : String) :
    Except PExn PState :=
  let parts := splitEq1 arg_value
  let flag_name := parts.1
  match _find_long_flag command flag_name with
  | Option.none => .error (.err (.unknownFlag command._name flag_name))
  | some flag =>
    let st := { st with requiredFlags := st.requiredFlags.erase flag._name }
    if parts.2.isSome && !(flag._kind == .value) then
      .error (.err (.valueNotAccepted command._name flag_name))
    else
      match flag._kind with
      | .value =>
        match parts.2 with
        | Option.none =>
          if h : st.idx < argv.length then
            let value := argv.get ⟨st.idx, h⟩
            let st := { st with idx := st.idx + 1 }
            match applyConv flag._parserFn value (fun m => .invalidArgument command._name flag_name m) with
            | .error e => .error e
            | .ok v =>
              match appendFlagValue st.values flag._name v with
              | .error e => .error e
              | .ok vs => .ok { st with values := vs }
          else .error (.err (.missingValue command._name flag_name))
        | some v0 =>
          match applyConv flag._parserFn v0 (fun m => .invalidArgument command._name flag_name m) with
          | .error e => .error e
          | .ok v =>
            match appendFlagValue st.values flag._name v with
            | .error e => .error e
            | .ok vs => .ok { st with values := vs }
      | .count =>
        match countIncr st.values flag._name with
        | .error e => .error e
        | .ok vs => .ok { st with values := vs }
      | .present =>
        if hasattr st.values flag._name then
          .error (.err (.duplicateFlag command._name flag._name))
        else .ok { st with values := setattr st.values flag._name (.bool true) }

/-- The `for flag_name in flag_names:` loop of `_ArgParse._parse_short`:
each derived short name is resolved and handled in turn; a `value`-kind
flag consumes the next token of the OUTER sequence (`argv[idx]`), after
which the loop continues with the remaining cluster characters. -/
def shortClusterLoop (command : Command) (argv : List String) :
    PState → List String → Except PExn PState
  | st, [] => .ok st
  | st, flag_name :: rest =>
    match _find_short_flag command flag_name with
    | Option.none => .error (.err (.unknownFlag command._name flag_name))
    | some flag =>
      let st := { st with requiredFlags := st.requiredFlags.erase flag._name }
      match flag._kind with
      | .value =>
        if h : st.idx < argv.length then
          let value := argv.get ⟨st.idx, h⟩
          let st := { st with idx := st.idx + 1 }
          match applyConv flag._parserFn value (fun m => .invalidArgument command._name flag_name m) with
          | .error e => .error e
          | .ok v =>
            match appendFlagValue st.values flag._name v with
            | .error e => .error e
            | .ok vs => shortClusterLoop command argv { st with values := vs } rest
        else .error (.err (.missingValue command._name flag_name))
      | .count =>
        match countIncr st.values flag._name with
        | .error e => .error e
        | .ok vs => shortClusterLoop command argv { st with values := vs } rest
      | .present =>
        if hasattr st.values flag._name then
          .error (.err (.duplicateFlag command._name flag_name))
        else
          shortClusterLoop command argv
            { st with values := setattr st.values flag._name (.bool true) } rest

/-- `_ArgParse._parse_short`, lines 344-384: derive `-c` names from the
characters after the leading dash, reject a bare `-`, then run the loop. -/
def _parse_short (command : Command) (argv : List String) (st : PState) (arg_value : String) :
    Except PExn PState :=
  let flag_names := (arg_value.toList.drop 1).map (fun c => String.mk ['-', c])
  match flag_names with
  | [] => .error (.err .invalidDashArgument)
  | _ => shortClusterLoop command argv st flag_names

/-- `_find_command`, lines 389-405: first command whose (not-disabled)
name matches case-insensitively, or one of whose short/long aliases
matches exactly. -/
def _find_command : List Command → String → Option Command
  | [], _ => Option.none
  | command :: rest, command_name =>
    if !command._disable_name && pyLower command_name == pyLower command._name then some command
    else if command._short.any (fun s => s == command_name) then some command
    else if command._long.any (fun l => l == command_name) then some command
    else _find_command rest command_name

/-- The `while parser.idx < len(argv):` loop of `parse_args`, with a fuel
parameter for structural recursion.  Each iteration advances `idx` by at
least one, so `argv.length` fuel always suffices (the `0` case is never
reached by `parse_args`). -/
def parseLoop (command : Command) (argv : List String) : Nat → PState → Except PExn PState
  | 0, st => .ok st
  | fuel + 1, st =>
    if h : st.idx < argv.length then
      let arg_value := argv.get ⟨st.idx, h⟩
      let st1 : PState := { st with idx := st.idx + 1 }
      if pyStartsWith arg_value "--" then
        match _parse_long command argv st1 arg_value with
        | .error e => .error e
        | .ok st2 => parseLoop command argv fuel st2
      else if pyStartsWith arg_value "-" then
        match _parse_short command argv st1 arg_value with
        | .error e => .error e
        | .ok st2 => parseLoop command argv fuel st2
      else
        match command._params.get? st1.paramIdx with
        | Option.none => .error (.err (.unexpectedPositional command._name arg_value))
        | some param =>
          match applyConv param._parserFn arg_value (fun m => .invalidArgument command._name arg_value m) with
          | .error e => .error e
          | .ok v =>
            parseLoop command argv fuel
              { st1 with paramIdx := st1.paramIdx + 1, values := setattr st1.values param._name v }
    else .ok st

/-- The initial `_ArgParse` state set up by `parse_args` (lines 424-430):
cursor after the command token, no positionals filled, empty namespace,
required-flag working set seeded from the spec in declaration order. -/
def initState (command : Command) : PState :=
  { idx := 1, paramIdx := 0, values := [],
    requiredFlags := command._flags.foldl
      (fun acc flag => if flag._required && !(acc.contains flag._name) then acc ++ [flag._name] else acc)
      [] }

/-- The `# default-values` loop over `command.params()` (lines 465-468). -/
def fillParamDefaults (vs : Values) : List Param → Values
  | [] => vs
  | p :: ps =>
    fillParamDefaults
      (if p.is_optional && !(hasattr vs p._name) then setattr vs p._name p._default else vs) ps

/-- The `# default-values` loop over `command.flags()` (lines 469-472). -/
def fillFlagDefaults (vs : Values) : List Flag → Values
  | [] => vs
  | f :: fs =>
    fillFlagDefaults
      (if f.is_optional && !(hasattr vs f._name) then setattr vs f._name f._default else vs) fs

/-- Lines 461-476 of `parse_args`: the missing-required-flags check, then
the default-value loops, then the `Args` result. -/
def finishParse (command : Command) (st : PState) : Except PExn Args :=
  if st.requiredFlags.isEmpty then
    .ok { _command := command._name,
          _values := fillFlagDefaults (fillParamDefaults st.values command._params) command._flags }
  else .error (.err (.missingRequiredFlags st.requiredFlags))

/-- `parse_args`, lines 408-476: select the command from the first token,
scan the remaining tokens, check required positionals and flags, fill
defaults, return the `Args`. -/
def parse_args (commands : List Command) (argv : List String) : Except PExn Args :=
  match argv with
  | [] => .error (.err .noCommand)
  | tok0 :: _ =>
    match _find_command commands tok0 with
    | Option.none => .error (.err (.unknownCommand tok0))
    | some command =>
      match parseLoop command argv argv.length (initState command) with
      | .error e => .error e
      | .ok st =>
        match command._params.get? st.paramIdx with
        | some p =>
          if p._required then .error (.err (.missingRequiredPositional p._name))
          else finishParse command st
        | Option.none => finishParse command st

/-! ## Help renderer: the command-specific Flags block (lines 540-562) -/

/-- A flag's label in the help Flags block: short then long aliases joined
by `", "`, wrapped in `[...]` when optional and `<...>` when required. -/
def flagLabel (flag : Flag) : String :=
  let parts := flag._short ++ flag._long
  let item := String.intercalate ", " parts
  if flag.is_optional then "[" ++ item ++ "]" else "<" ++ item ++ ">"

/-- Python's `f"{s:<{w}}"`: left-justify `s` in a field of width `w`. -/
def padTo (s : String) (w : Nat) : String :=
  s ++ String.mk (List.replicate (w - s.length) ' ')

/-- The lines printed for the Flags block of command-specific help: one
line per flag, label padded to the block's widest label, then the
description, then the default suffix.  Line 559 of `src/cli.py` builds the
suffix from the PLAIN string `"(default {default!r})"` (the `f` prefix is
missing, unlike the Arguments block's line 534), so for a truthy default
the literal placeholder text is printed, not the default value. -/
def flagsBlockLines (command : Command) : List String :=
  let flags := command._flags.map flagLabel
  let max_width := flags.foldl (fun m it => max m it.length) 0
  (flags.zip command._flags).map (fun nf =>
    let dflt := if nf.2._default.truthy then "(default \x7bdefault!r\x7d)" else ""
    "  " ++ padTo nf.1 max_width ++ " " ++ (nf.2._description.getD "") ++ " " ++ dflt)

/-! ## Concrete instances used by counterexamples and witnesses -/

/-- A `value`-kind flag `-o`/`--output`, optional, no conversion function,
default `None` (as built by `Flag("output", ...).short("-o").long("--output").valued()`,
with the name shortened to `o`). -/
def oFlag : Flag :=
  { _name := "o", _description := some "the output file path", _required := false,
    _short := ["-o"], _long := ["--output"], _parserFn := Option.none,
    _kind := .value, _default := Value.none }

/-- A `count`-kind flag `-v`/`--verbose`, optional, default `None`. -/
def vFlag : Flag :=
  { _name := "v", _description := some "verbosity", _required := false,
    _short := ["-v"], _long := ["--verbose"], _parserFn := Option.none,
    _kind := .count, _default := Value.none }

/-- A command `c` declaring `oFlag` then `vFlag` and no positionals. -/
def cmdOV : Command :=
  { _name := "c", _description := some "demo command", _short := [], _long := [],
    _disable_name := false, _flags := [oFlag, vFlag], _params := [] }

/-- `oFlag` with the truthy declared default `"out.txt"`. -/
def outFlag : Flag := { oFlag with _default := .str "out.txt" }

/-- A command declaring just `outFlag`. -/
def cmdOut : Command := { cmdOV with _flags := [outFlag] }

/-- An optional positional param `a`. -/
def pOpt : Param :=
  { _name := "a", _description := Option.none, _required := false,
    _parserFn := Option.none, _default := Value.none }

/-- A required positional param `b`. -/
def pReq : Param :=
  { _name := "b", _description := Option.none, _required := true,
    _parserFn := Option.none, _default := Value.none }

/-- A command that already holds the optional param `a`. -/
def cmdP : Command := { cmdOV with _flags := [], _params := [pOpt] }

/-- The command produced by `Command.init "x" none`. -/
def c0x : Command :=
  { _name := "x", _description := Option.none, _short := [], _long := [],
    _disable_name := false, _flags := [], _params := [] }

/-- `c0x` after `.arg(pReq).arg(pOpt)`. -/
def cRes : Command := { c0x with _params := [pReq, pOpt] }

/-- A conversion function that raises a cancellation-type interrupt. -/
def convInterrupt : String → ConvRes := fun _ => ConvRes.interrupt

/-- A conversion function that raises an ordinary exception `"boom"`. -/
def convFail : String → ConvRes := fun _ => ConvRes.exn "boom"

/-- `oFlag` with the interrupting conversion function attached. -/
def oFlagInt : Flag := { oFlag with _parserFn := some convInterrupt }

/-- `oFlag` with the failing conversion function attached. -/
def oFlagFail : Flag := { oFlag with _parserFn := some convFail }

/-- A command declaring `oFlagInt`. -/
def cmdInt : Command := { cmdOV with _flags := [oFlagInt] }

/-- A command declaring `oFlagFail`. -/
def cmdFail : Command := { cmdOV with _flags := [oFlagFail] }

/-! ## Specification-level definitions used by the theorems -/

/-- The names declared on a command: its flags' names then its params'. -/
def declaredNames (c : Command) : List String :=
  c._flags.map (fun f => f._name) ++ c._params.map (fun p => p._name)

/-- Invariant maintained by the scanning loop: result keys are
duplicate-free and declared; every required flag is still in the working
set or already recorded; the positional cursor is in range and every
positional to its left is recorded. -/
def Inv (c : Command) (st : PState) : Prop :=
  (st.values.map Prod.fst).Nodup
  ∧ (∀ n, hasattr st.values n = true → n ∈ declaredNames c)
  ∧ (∀ f ∈ c._flags, f._required = true →
      f._name ∈ st.requiredFlags ∨ hasattr st.values f._name = true)
  ∧ st.paramIdx ≤ c._params.length
  ∧ (∀ i p, i < st.paramIdx → c._params.get? i = some p → hasattr st.values p._name = true)

/-- Common shape of the two default-filling loops: a list of
(name, is-optional, default) triples processed left to right. -/
def fillDefaultsG (vs : Values) : List (String × Bool × Value) → Values
  | [] => vs
  | d :: ds =>
    fillDefaultsG (if d.2.1 && !(hasattr vs d.1) then setattr vs d.1 d.2.2 else vs) ds

/-- `Except.isOk` as a plain Bool (tiny helper for stating failure). -/
def exceptIsOk : Except ε α → Bool
  | .ok _ => true
  | .error _ => false

/-- Required positionals precede all optional ones: once a param is
optional, every later one is optional too. -/
def paramsOrdered (ps : List Param) : Prop :=
  List.Pairwise (fun p q => p._required = false → q._required = false) ps

/-- What the builder guarantees about a command: the declared flag/param
names are pairwise distinct, and required params precede optional ones. -/
def Command.wf (c : Command) : Prop :=
  (declaredNames c).Nodup ∧ paramsOrdered c._params

/-- The matching predicate exactly as the spec words it: (a) `disable_name`
is false and the token equals the command's name case-insensitively, or
(b) the token equals, case-sensitively and exactly, one of the command's
short or long aliases. -/
def specCmdMatches (tok : String) (c : Command) : Prop :=
  (c._disable_name = false ∧ pyLower tok = pyLower c._name)
  ∨ tok ∈ c._short ∨ tok ∈ c._long

instance (tok : String) (c : Command) : Decidable (specCmdMatches tok c) := by
  unfold specCmdMatches
  infer_instance


/-! ## Lemmas about the value namespace -/

theorem hasattr_nil (n : String) : hasattr [] n = false := rfl

theorem hasattr_cons (k : String) (w : Value) (rest : Values) (m : String) :
    hasattr ((k, w) :: rest) m = (k == m || hasattr rest m) := by
  simp only [hasattr, List.any_cons]

theorem lookupVal_nil (n : String) : lookupVal [] n = Option.none := rfl

theorem lookupVal_cons_self (k : String) (w : Value) (rest : Values) :
    lookupVal ((k, w) :: rest) k = some w := by
  have hb : ((k, w).1 == k) = true := by simp
  simp [lookupVal, List.find?, hb]

theorem lookupVal_cons_ne (k : String) (w : Value) (rest : Values) (m : String)
    (h : k ≠ m) : lookupVal ((k, w) :: rest) m = lookupVal rest m := by
  have hb : ((k, w).1 == m) = false := by simpa using h
  simp [lookupVal, List.find?, hb]

theorem setattr_nil (n : String) (v : Value) : setattr [] n v = [(n, v)] := rfl

theorem setattr_cons_self (k : String) (w : Value) (rest : Values) (v : Value) :
    setattr ((k, w) :: rest) k v = (k, v) :: rest := by
  simp [setattr]

theorem setattr_cons_ne (k : String) (w : Value) (rest : Values) (n : String) (v : Value)
    (h : k ≠ n) : setattr ((k, w) :: rest) n v = (k, w) :: setattr rest n v := by
  simp [setattr, h]

theorem hasattr_iff_mem (vs : Values) (n : String) :
    hasattr vs n = true ↔ n ∈ vs.map Prod.fst := by
  induction vs with
  | nil => simp [hasattr_nil]
  | cons kv rest ih =>
    obtain ⟨k, w⟩ := kv
    rw [hasattr_cons]
    simp only [Bool.or_eq_true, beq_iff_eq, ih, List.map_cons, List.mem_cons]
    constructor
    · rintro (h | h)
      · exact Or.inl h.symm
      · exact Or.inr h
    · rintro (h | h)
      · exact Or.inl h.symm
      · exact Or.inr h

theorem mem_keys_setattr (vs : Values) (n : String) (v : Value) (m : String) :
    m ∈ (setattr vs n v).map Prod.fst ↔ m = n ∨ m ∈ vs.map Prod.fst := by
  induction vs with
  | nil => simp [setattr_nil]
  | cons kv rest ih =>
    obtain ⟨k, w⟩ := kv
    by_cases hk : k = n
    · subst hk
      rw [setattr_cons_self]
      simp only [List.map_cons, List.mem_cons]
      tauto
    · rw [setattr_cons_ne _ _ _ _ _ hk]
      simp only [List.map_cons, List.mem_cons, ih]
      tauto

theorem hasattr_setattr (vs : Values) (n : String) (v : Value) (m : String) :
    hasattr (setattr vs n v) m = true ↔ m = n ∨ hasattr vs m = true := by
  rw [hasattr_iff_mem, hasattr_iff_mem, mem_keys_setattr]

theorem keys_nodup_setattr (vs : Values) (n : String) (v : Value)
    (h : (vs.map Prod.fst).Nodup) : ((setattr vs n v).map Prod.fst).Nodup := by
  induction vs with
  | nil => simp [setattr_nil]
  | cons kv rest ih =>
    obtain ⟨k, w⟩ := kv
    simp only [List.map_cons, List.nodup_cons] at h
    by_cases hk : k = n
    · subst hk
      rw [setattr_cons_self]
      simp only [List.map_cons, List.nodup_cons]
      exact h
    · rw [setattr_cons_ne _ _ _ _ _ hk]
      simp only [List.map_cons, List.nodup_cons]
      refine ⟨fun hmem => ?_, ih h.2⟩
      rcases (mem_keys_setattr rest n v k).mp hmem with h1 | h1
      · exact hk h1
      · exact h.1 h1

theorem lookupVal_setattr_self (vs : Values) (n : String) (v : Value) :
    lookupVal (setattr vs n v) n = some v := by
  induction vs with
  | nil => rw [setattr_nil]; exact lookupVal_cons_self n v []
  | cons kv rest ih =>
    obtain ⟨k, w⟩ := kv
    by_cases hk : k = n
    · subst hk
      rw [setattr_cons_self]
      exact lookupVal_cons_self k v rest
    · rw [setattr_cons_ne _ _ _ _ _ hk, lookupVal_cons_ne _ _ _ _ hk]
      exact ih

theorem lookupVal_setattr_ne (vs : Values) (n : String) (v : Value) (m : String)
    (h : m ≠ n) : lookupVal (setattr vs n v) m = lookupVal vs m := by
  induction vs with
  | nil =>
    rw [setattr_nil, lookupVal_cons_ne _ _ _ _ (fun hh => h hh.symm), lookupVal_nil]
  | cons kv rest ih =>
    obtain ⟨k, w⟩ := kv
    by_cases hk : k = n
    · subst hk
      rw [setattr_cons_self, lookupVal_cons_ne _ _ _ _ (fun hh => h hh.symm),
          lookupVal_cons_ne _ _ _ _ (fun hh => h hh.symm)]
    · by_cases hkm : k = m
      · subst hkm
        rw [setattr_cons_ne _ _ _ _ _ hk, lookupVal_cons_self, lookupVal_cons_self]
      · rw [setattr_cons_ne _ _ _ _ _ hk, lookupVal_cons_ne _ _ _ _ hkm,
            lookupVal_cons_ne _ _ _ _ hkm]
        exact ih

theorem lookupVal_isSome_eq_hasattr (vs : Values) (n : String) :
    (lookupVal vs n).isSome = hasattr vs n := by
  induction vs with
  | nil => simp [lookupVal_nil, hasattr_nil]
  | cons kv rest ih =>
    obtain ⟨k, w⟩ := kv
    rw [hasattr_cons]
    by_cases hk : k = n
    · subst hk
      rw [lookupVal_cons_self]
      simp
    · rw [lookupVal_cons_ne _ _ _ _ hk]
      have hb : (k == n) = false := by simpa using hk
      rw [hb]
      simpa using ih

theorem hasattr_of_lookupVal_some (vs : Values) (n : String) (v : Value)
    (h : lookupVal vs n = some v) : hasattr vs n = true := by
  have := lookupVal_isSome_eq_hasattr vs n
  rw [h] at this
  simpa using this.symm

theorem appendFlagValue_ok (vs : Values) (n : String) (v : Value) (vs' : Values)
    (h : appendFlagValue vs n v = .ok vs') : ∃ w, vs' = setattr vs n w := by
  unfold appendFlagValue at h
  by_cases ha : hasattr vs n = true
  · rw [if_pos ha] at h
    cases hl : lookupVal vs n with
    | none => rw [hl] at h; simp at h
    | some u =>
      rw [hl] at h
      cases u <;> simp at h
      exact ⟨_, h.symm⟩
  · rw [if_neg ha] at h
    simp at h
    exact ⟨_, h.symm⟩

theorem countIncr_ok (vs : Values) (n : String) (vs' : Values)
    (h : countIncr vs n = .ok vs') : ∃ w, vs' = setattr vs n w := by
  unfold countIncr at h
  cases hg : getattrD vs n (.int 0) <;> rw [hg] at h <;> simp at h
  · exact ⟨_, h.symm⟩
  · exact ⟨_, h.symm⟩

/-! ## The parser invariant -/

theorem Inv_flagStep (c : Command) (st : PState) (f : Flag) (hf : f ∈ c._flags)
    (w : Value) (i : Nat) (hinv : Inv c st) :
    Inv c ⟨i, st.paramIdx, setattr st.values f._name w, st.requiredFlags.erase f._name⟩ := by
  obtain ⟨hnd, hkeys, hreq, hle, hpos⟩ := hinv
  refine ⟨keys_nodup_setattr _ _ _ hnd, ?_, ?_, hle, ?_⟩
  · intro n hn
    rcases (hasattr_setattr _ _ _ _).mp hn with rfl | hn
    · exact List.mem_append_left _ (List.mem_map.mpr ⟨f, hf, rfl⟩)
    · exact hkeys n hn
  · intro g hg hgr
    by_cases hname : g._name = f._name
    · right
      rw [hname]
      exact (hasattr_setattr _ _ _ _).mpr (Or.inl rfl)
    · rcases hreq g hg hgr with h1 | h1
      · exact Or.inl ((List.mem_erase_of_ne hname).mpr h1)
      · exact Or.inr ((hasattr_setattr _ _ _ _).mpr (Or.inr h1))
  · intro j p hj hp
    exact (hasattr_setattr _ _ _ _).mpr (Or.inr (hpos j p hj hp))

theorem Inv_posStep (c : Command) (st : PState) (p : Param)
    (hp : c._params.get? st.paramIdx = some p) (v : Value) (i : Nat) (hinv : Inv c st) :
    Inv c ⟨i, st.paramIdx + 1, setattr st.values p._name v, st.requiredFlags⟩ := by
  obtain ⟨hnd, hkeys, hreq, hle, hpos⟩ := hinv
  have hlt : st.paramIdx < c._params.length := by
    by_contra hge
    rw [List.get?_eq_none.mpr (Nat.le_of_not_lt hge)] at hp
    cases hp
  refine ⟨keys_nodup_setattr _ _ _ hnd, ?_, ?_, hlt, ?_⟩
  · intro n hn
    rcases (hasattr_setattr _ _ _ _).mp hn with rfl | hn
    · exact List.mem_append_right _ (List.mem_map.mpr ⟨p, List.get?_mem hp, rfl⟩)
    · exact hkeys n hn
  · intro g hg hgr
    rcases hreq g hg hgr with h1 | h1
    · exact Or.inl h1
    · exact Or.inr ((hasattr_setattr _ _ _ _).mpr (Or.inr h1))
  · intro j q hj hq
    rcases Nat.lt_succ_iff_lt_or_eq.mp hj with hj | rfl
    · exact (hasattr_setattr _ _ _ _).mpr (Or.inr (hpos j q hj hq))
    · rw [hp] at hq
      injection hq with hq
      subst hq
      exact (hasattr_setattr _ _ _ _).mpr (Or.inl rfl)

theorem _parse_long_inv (command : Command) (argv : List String) (st : PState)
    (arg_value : String) (st' : PState)
    (h : _parse_long command argv st arg_value = .ok st') (hinv : Inv command st) :
    Inv command st' := by
  simp only [_parse_long] at h
  cases hfind : _find_long_flag command (splitEq1 arg_value).1 with
  | none => rw [hfind] at h; simp at h
  | some flag =>
    rw [hfind] at h
    dsimp only at h
    have hf : flag ∈ command._flags := List.mem_of_find?_eq_some hfind
    by_cases hval : ((splitEq1 arg_value).2.isSome && !(flag._kind == FlagKind.value)) = true
    · rw [if_pos hval] at h; simp at h
    · rw [if_neg hval] at h
      cases hkind : flag._kind with
      | value =>
        rw [hkind] at h
        dsimp only at h
        cases hparts : (splitEq1 arg_value).2 with
        | none =>
          rw [hparts] at h
          dsimp only at h
          by_cases hidx : st.idx < argv.length
          · rw [dif_pos hidx] at h
            cases hconv : applyConv flag._parserFn (argv.get ⟨st.idx, hidx⟩)
                (fun m => .invalidArgument command._name (splitEq1 arg_value).1 m) with
            | error e => rw [hconv] at h; simp at h
            | ok v =>
              rw [hconv] at h
              dsimp only at h
              cases happ : appendFlagValue st.values flag._name v with
              | error e => rw [happ] at h; simp at h
              | ok vs =>
                rw [happ] at h
                simp only [Except.ok.injEq] at h
                obtain ⟨w, hw⟩ := appendFlagValue_ok _ _ _ _ happ
                subst hw
                rw [← h]
                exact Inv_flagStep command st flag hf w _ hinv
          · rw [dif_neg hidx] at h; simp at h
        | some v0 =>
          rw [hparts] at h
          dsimp only at h
          cases hconv : applyConv flag._parserFn v0
              (fun m => .invalidArgument command._name (splitEq1 arg_value).1 m) with
          | error e => rw [hconv] at h; simp at h
          | ok v =>
            rw [hconv] at h
            dsimp only at h
            cases happ : appendFlagValue st.values flag._name v with
            | error e => rw [happ] at h; simp at h
            | ok vs =>
              rw [happ] at h
              simp only [Except.ok.injEq] at h
              obtain ⟨w, hw⟩ := appendFlagValue_ok _ _ _ _ happ
              subst hw
              rw [← h]
              exact Inv_flagStep command st flag hf w _ hinv
      | count =>
        rw [hkind] at h
        dsimp only at h
        cases hcnt : countIncr st.values flag._name with
        | error e => rw [hcnt] at h; simp at h
        | ok vs =>
          rw [hcnt] at h
          simp only [Except.ok.injEq] at h
          obtain ⟨w, hw⟩ := countIncr_ok _ _ _ hcnt
          subst hw
          rw [← h]
          exact Inv_flagStep command st flag hf w _ hinv
      | present =>
        rw [hkind] at h
        dsimp only at h
        by_cases hhas : hasattr st.values flag._name = true
        · rw [if_pos hhas] at h; simp at h
        · rw [if_neg hhas] at h
          simp only [Except.ok.injEq] at h
          rw [← h]
          exact Inv_flagStep command st flag hf (.bool true) _ hinv

theorem shortClusterLoop_inv (command : Command) (argv : List String) :
    ∀ (names : List String) (st st' : PState),
      shortClusterLoop command argv st names = .ok st' → Inv command st → Inv command st' := by
  intro names
  induction names with
  | nil =>
    intro st st' h hinv
    simp only [shortClusterLoop, Except.ok.injEq] at h
    rw [← h]
    exact hinv
  | cons flag_name rest ih =>
    intro st st' h hinv
    simp only [shortClusterLoop] at h
    cases hfind : _find_short_flag command flag_name with
    | none => rw [hfind] at h; simp at h
    | some flag =>
      rw [hfind] at h
      dsimp only at h
      have hf : flag ∈ command._flags := List.mem_of_find?_eq_some hfind
      cases hkind : flag._kind with
      | value =>
        rw [hkind] at h
        dsimp only at h
        by_cases hidx : st.idx < argv.length
        · rw [dif_pos hidx] at h
          cases hconv : applyConv flag._parserFn (argv.get ⟨st.idx, hidx⟩)
              (fun m => .invalidArgument command._name flag_name m) with
          | error e => rw [hconv] at h; simp at h
          | ok v =>
            rw [hconv] at h
            dsimp only at h
            cases happ : appendFlagValue st.values flag._name v with
            | error e => rw [happ] at h; simp at h
            | ok vs =>
              rw [happ] at h
              dsimp only at h
              obtain ⟨w, hw⟩ := appendFlagValue_ok _ _ _ _ happ
              subst hw
              exact ih _ _ h (Inv_flagStep command st flag hf w _ hinv)
        · rw [dif_neg hidx] at h; simp at h
      | count =>
        rw [hkind] at h
        dsimp only at h
        cases hcnt : countIncr st.values flag._name with
        | error e => rw [hcnt] at h; simp at h
        | ok vs =>
          rw [hcnt] at h
          dsimp only at h
          obtain ⟨w, hw⟩ := countIncr_ok _ _ _ hcnt
          subst hw
          exact ih _ _ h (Inv_flagStep command st flag hf w _ hinv)
      | present =>
        rw [hkind] at h
        dsimp only at h
        by_cases hhas : hasattr st.values flag._name = true
        · rw [if_pos hhas] at h; simp at h
        · rw [if_neg hhas] at h
          exact ih _ _ h (Inv_flagStep command st flag hf (.bool true) _ hinv)

theorem _parse_short_inv (command : Command) (argv : List String) (st : PState)
    (arg_value : String) (st' : PState)
    (h : _parse_short command argv st arg_value = .ok st') (hinv : Inv command st) :
    Inv command st' := by
  simp only [_parse_short] at h
  cases hfn : (arg_value.toList.drop 1).map (fun c => String.mk ['-', c]) with
  | nil => rw [hfn] at h; simp at h
  | cons x xs =>
    rw [hfn] at h
    exact shortClusterLoop_inv command argv (x :: xs) st st' h hinv

theorem parseLoop_inv (command : Command) (argv : List String) :
    ∀ (fuel : Nat) (st st' : PState),
      parseLoop command argv fuel st = .ok st' → Inv command st → Inv command st' := by
  intro fuel
  induction fuel with
  | zero =>
    intro st st' h hinv
    simp only [parseLoop, Except.ok.injEq] at h
    rw [← h]
    exact hinv
  | succ fuel ih =>
    intro st st' h hinv
    simp only [parseLoop] at h
    by_cases hidx : st.idx < argv.length
    · rw [dif_pos hidx] at h
      by_cases hdd : pyStartsWith (argv.get ⟨st.idx, hidx⟩) "--" = true
      · rw [if_pos hdd] at h
        cases hlong : _parse_long command argv
            { st with idx := st.idx + 1 } (argv.get ⟨st.idx, hidx⟩) with
        | error e => rw [hlong] at h; simp at h
        | ok st2 =>
          rw [hlong] at h
          dsimp only at h
          have hinv1 : Inv command { st with idx := st.idx + 1 } := hinv
          exact ih _ _ h (_parse_long_inv _ _ _ _ _ hlong hinv1)
      · rw [if_neg hdd] at h
        by_cases hd : pyStartsWith (argv.get ⟨st.idx, hidx⟩) "-" = true
        · rw [if_pos hd] at h
          cases hshort : _parse_short command argv
              { st with idx := st.idx + 1 } (argv.get ⟨st.idx, hidx⟩) with
          | error e => rw [hshort] at h; simp at h
          | ok st2 =>
            rw [hshort] at h
            dsimp only at h
            have hinv1 : Inv command { st with idx := st.idx + 1 } := hinv
            exact ih _ _ h (_parse_short_inv _ _ _ _ _ hshort hinv1)
        · rw [if_neg hd] at h
          cases hp : command._params.get? st.paramIdx with
          | none => rw [hp] at h; simp at h
          | some param =>
            rw [hp] at h
            dsimp only at h
            cases hconv : applyConv param._parserFn (argv.get ⟨st.idx, hidx⟩)
                (fun m => .invalidArgument command._name (argv.get ⟨st.idx, hidx⟩) m) with
            | error e => rw [hconv] at h; simp at h
            | ok v =>
              rw [hconv] at h
              dsimp only at h
              have hinv1 : Inv command { st with idx := st.idx + 1 } := hinv
              exact ih _ _ h (Inv_posStep command { st with idx := st.idx + 1 } param hp v _ hinv1)
    · rw [dif_neg hidx] at h
      simp only [Except.ok.injEq] at h
      rw [← h]
      exact hinv

theorem mem_reqFold (l : List Flag) (acc : List String) (n : String) :
    n ∈ l.foldl
        (fun acc flag =>
          if flag._required && !(acc.contains flag._name) then acc ++ [flag._name] else acc)
        acc
      ↔ n ∈ acc ∨ ∃ f, f ∈ l ∧ f._required = true ∧ f._name = n := by
  induction l generalizing acc with
  | nil => simp
  | cons f l ih =>
    rw [List.foldl_cons]
    by_cases hc : (f._required && !(acc.contains f._name)) = true
    · rw [if_pos hc, ih]
      have hr : f._required = true := by
        rw [Bool.and_eq_true] at hc
        exact hc.1
      simp only [List.mem_append, List.mem_cons, List.not_mem_nil, or_false]
      constructor
      · rintro ((h | rfl) | ⟨g, hg, hgr, rfl⟩)
        · exact Or.inl h
        · exact Or.inr ⟨f, Or.inl rfl, hr, rfl⟩
        · exact Or.inr ⟨g, Or.inr hg, hgr, rfl⟩
      · rintro (h | ⟨g, (rfl | hg), hgr, rfl⟩)
        · exact Or.inl (Or.inl h)
        · exact Or.inl (Or.inr rfl)
        · exact Or.inr ⟨g, hg, hgr, rfl⟩
    · rw [if_neg hc, ih]
      constructor
      · rintro (h | ⟨g, hg, hgr, rfl⟩)
        · exact Or.inl h
        · exact Or.inr ⟨g, List.mem_cons_of_mem _ hg, hgr, rfl⟩
      · rintro (h | ⟨g, hg, hgr, rfl⟩)
        · exact Or.inl h
        · rcases List.mem_cons.mp hg with rfl | hg2
          · left
            have hb : ¬(g._required = true ∧ (!(acc.contains g._name)) = true) := by
              intro hab
              rw [Bool.and_eq_true] at hc
              exact hc hab
            have hcont : (acc.contains g._name) = true := by
              by_cases hcc : (acc.contains g._name) = true
              · exact hcc
              · have hfalse : acc.contains g._name = false := Bool.eq_false_iff.mpr hcc
                exact absurd ⟨hgr, by rw [hfalse]; rfl⟩ hb
            simpa [List.contains] using hcont
          · exact Or.inr ⟨g, hg2, hgr, rfl⟩

theorem Inv_initState (c : Command) : Inv c (initState c) := by
  refine ⟨by simp [initState], ?_, ?_, by simp [initState], ?_⟩
  · intro n hn
    simp [initState, hasattr_nil] at hn
  · intro f hf hfr
    left
    exact (mem_reqFold _ _ _).mpr (Or.inr ⟨f, hf, hfr, rfl⟩)
  · intro i p hi _
    exact absurd hi (Nat.not_lt_zero i)

/-! ## Lemmas about the default-filling loops -/

theorem fillParamDefaults_eq (ps : List Param) : ∀ vs,
    fillParamDefaults vs ps = fillDefaultsG vs (ps.map fun p => (p._name, p.is_optional, p._default)) := by
  induction ps with
  | nil => intro vs; rfl
  | cons p ps ih => intro vs; simp only [fillParamDefaults, fillDefaultsG, List.map_cons, ih]

theorem fillFlagDefaults_eq (fs : List Flag) : ∀ vs,
    fillFlagDefaults vs fs = fillDefaultsG vs (fs.map fun f => (f._name, f.is_optional, f._default)) := by
  induction fs with
  | nil => intro vs; rfl
  | cons f fs ih => intro vs; simp only [fillFlagDefaults, fillDefaultsG, List.map_cons, ih]

theorem fillG_hasattr_mono (ds : List (String × Bool × Value)) : ∀ vs n,
    hasattr vs n = true → hasattr (fillDefaultsG vs ds) n = true := by
  induction ds with
  | nil => intro vs n h; exact h
  | cons d ds ih =>
    intro vs n h
    simp only [fillDefaultsG]
    apply ih
    by_cases hc : (d.2.1 && !(hasattr vs d.1)) = true
    · rw [if_pos hc]
      exact (hasattr_setattr _ _ _ _).mpr (Or.inr h)
    · rw [if_neg hc]
      exact h

theorem fillG_keys (ds : List (String × Bool × Value)) : ∀ vs n,
    hasattr (fillDefaultsG vs ds) n = true →
    hasattr vs n = true ∨ ∃ d ∈ ds, d.1 = n := by
  induction ds with
  | nil => intro vs n h; exact Or.inl h
  | cons d ds ih =>
    intro vs n h
    simp only [fillDefaultsG] at h
    rcases ih _ _ h with h1 | ⟨e, he, rfl⟩
    · by_cases hc : (d.2.1 && !(hasattr vs d.1)) = true
      · rw [if_pos hc] at h1
        rcases (hasattr_setattr _ _ _ _).mp h1 with rfl | h2
        · exact Or.inr ⟨d, List.mem_cons_self d ds, rfl⟩
        · exact Or.inl h2
      · rw [if_neg hc] at h1
        exact Or.inl h1
    · exact Or.inr ⟨e, List.mem_cons_of_mem _ he, rfl⟩

theorem fillG_nodup (ds : List (String × Bool × Value)) : ∀ vs,
    (vs.map Prod.fst).Nodup → ((fillDefaultsG vs ds).map Prod.fst).Nodup := by
  induction ds with
  | nil => intro vs h; exact h
  | cons d ds ih =>
    intro vs h
    simp only [fillDefaultsG]
    apply ih
    by_cases hc : (d.2.1 && !(hasattr vs d.1)) = true
    · rw [if_pos hc]
      exact keys_nodup_setattr _ _ _ h
    · rw [if_neg hc]
      exact h

theorem fillG_has_opt (ds : List (String × Bool × Value)) : ∀ vs d, d ∈ ds → d.2.1 = true →
    hasattr (fillDefaultsG vs ds) d.1 = true := by
  induction ds with
  | nil => intro vs d hd; cases hd
  | cons e ds ih =>
    intro vs d hd hopt
    rcases List.mem_cons.mp hd with rfl | hd2
    · simp only [fillDefaultsG]
      apply fillG_hasattr_mono
      by_cases hh : hasattr vs d.1 = true
      · by_cases hc : (d.2.1 && !(hasattr vs d.1)) = true
        · rw [if_pos hc]
          exact (hasattr_setattr _ _ _ _).mpr (Or.inr hh)
        · rw [if_neg hc]
          exact hh
      · have hfalse : hasattr vs d.1 = false := Bool.eq_false_iff.mpr hh
        have hc : (d.2.1 && !(hasattr vs d.1)) = true := by
          rw [hopt, hfalse]
          rfl
        rw [if_pos hc]
        exact (hasattr_setattr _ _ _ _).mpr (Or.inl rfl)
    · simp only [fillDefaultsG]
      exact ih _ d hd2 hopt

theorem fillG_lookup_preserved (ds : List (String × Bool × Value)) : ∀ vs n,
    hasattr vs n = true → lookupVal (fillDefaultsG vs ds) n = lookupVal vs n := by
  induction ds with
  | nil => intro vs n _; rfl
  | cons d ds ih =>
    intro vs n h
    simp only [fillDefaultsG]
    by_cases hc : (d.2.1 && !(hasattr vs d.1)) = true
    · rw [if_pos hc]
      have hne : n ≠ d.1 := by
        intro he
        rw [Bool.and_eq_true] at hc
        have := hc.2
        rw [← he, h] at this
        simp at this
      rw [ih _ _ ((hasattr_setattr _ _ _ _).mpr (Or.inr h)), lookupVal_setattr_ne _ _ _ _ hne]
    · rw [if_neg hc]
      exact ih _ _ h

theorem fillG_lookup_not_mem (ds : List (String × Bool × Value)) : ∀ vs n,
    (∀ d ∈ ds, d.1 ≠ n) → lookupVal (fillDefaultsG vs ds) n = lookupVal vs n := by
  induction ds with
  | nil => intro vs n _; rfl
  | cons d ds ih =>
    intro vs n hne
    simp only [fillDefaultsG]
    have hd : d.1 ≠ n := hne d (List.mem_cons_self d ds)
    have htail : ∀ e ∈ ds, e.1 ≠ n := fun e he => hne e (List.mem_cons_of_mem _ he)
    by_cases hc : (d.2.1 && !(hasattr vs d.1)) = true
    · rw [if_pos hc, ih _ _ htail, lookupVal_setattr_ne _ _ _ _ (fun he => hd he.symm)]
    · rw [if_neg hc]
      exact ih _ _ htail

theorem fillG_hasattr_not_mem (ds : List (String × Bool × Value)) : ∀ vs n,
    (∀ d ∈ ds, d.1 ≠ n) → hasattr (fillDefaultsG vs ds) n = hasattr vs n := by
  induction ds with
  | nil => intro vs n _; rfl
  | cons d ds ih =>
    intro vs n hne
    simp only [fillDefaultsG]
    have hd : d.1 ≠ n := hne d (List.mem_cons_self d ds)
    have htail : ∀ e ∈ ds, e.1 ≠ n := fun e he => hne e (List.mem_cons_of_mem _ he)
    by_cases hc : (d.2.1 && !(hasattr vs d.1)) = true
    · rw [if_pos hc, ih _ _ htail]
      by_cases hh : hasattr vs n = true
      · rw [hh]
        exact (hasattr_setattr vs d.1 d.2.2 n).mpr (Or.inr hh)
      · rw [Bool.eq_false_iff.mpr hh]
        apply Bool.eq_false_iff.mpr
        intro h2
        rcases (hasattr_setattr _ _ _ _).mp h2 with rfl | h3
        · exact hd rfl
        · exact hh h3
    · rw [if_neg hc]
      exact ih _ _ htail

theorem fillG_lookup_default (ds : List (String × Bool × Value)) : ∀ vs d,
    (ds.map Prod.fst).Nodup → d ∈ ds → d.2.1 = true → hasattr vs d.1 = false →
    lookupVal (fillDefaultsG vs ds) d.1 = some d.2.2 := by
  induction ds with
  | nil => intro vs d _ hd; cases hd
  | cons e ds ih =>
    intro vs d hnd hd hopt hnot
    simp only [List.map_cons, List.nodup_cons] at hnd
    rcases List.mem_cons.mp hd with rfl | hd2
    · simp only [fillDefaultsG]
      have hc : (d.2.1 && !(hasattr vs d.1)) = true := by
        rw [hopt, hnot]
        rfl
      rw [if_pos hc]
      have hne : ∀ e ∈ ds, e.1 ≠ d.1 := by
        intro e he heq
        exact hnd.1 (heq ▸ List.mem_map.mpr ⟨e, he, rfl⟩)
      rw [fillG_lookup_not_mem _ _ _ hne, lookupVal_setattr_self]
    · simp only [fillDefaultsG]
      have hne : d.1 ≠ e.1 := by
        intro heq
        exact hnd.1 (heq ▸ List.mem_map.mpr ⟨d, hd2, rfl⟩)
      by_cases hc : (e.2.1 && !(hasattr vs e.1)) = true
      · rw [if_pos hc]
        have hnot2 : hasattr (setattr vs e.1 e.2.2) d.1 = false := by
          apply Bool.eq_false_iff.mpr
          intro h2
          rcases (hasattr_setattr _ _ _ _).mp h2 with h3 | h3
          · exact hne h3
          · rw [h3] at hnot
            cases hnot
        exact ih _ d hnd.2 hd2 hopt hnot2
      · rw [if_neg hc]
        exact ih _ d hnd.2 hd2 hopt hnot

/-! ## Well-formedness of built commands -/

theorem paramsOrdered_getLast_optional (ps : List Param) (h : paramsOrdered ps)
    (q : Param) (hq : q ∈ ps) (hopt : q._required = false) :
    ∃ lst, ps.getLast? = some lst ∧ lst._required = false := by
  obtain ⟨i, hi⟩ := List.mem_iff_get?.mp hq
  have hilt : i < ps.length := by
    by_contra hge
    rw [List.get?_eq_none.mpr (Nat.le_of_not_lt hge)] at hi
    cases hi
  have hlen : 0 < ps.length := Nat.lt_of_le_of_lt (Nat.zero_le i) hilt
  have hlast : ps.length - 1 < ps.length := Nat.sub_lt hlen Nat.one_pos
  refine ⟨ps.get ⟨ps.length - 1, hlast⟩, ?_, ?_⟩
  · rw [List.getLast?_eq_get?, List.get?_eq_get hlast]
  · have hiq : ps.get ⟨i, hilt⟩ = q := by
      rw [List.get?_eq_get hilt] at hi
      injection hi
    rcases Nat.lt_or_ge i (ps.length - 1) with hlt | hge
    · have := (List.pairwise_iff_get.mp h) ⟨i, hilt⟩ ⟨ps.length - 1, hlast⟩ hlt
      rw [hiq] at this
      exact this hopt
    · have : i = ps.length - 1 := Nat.le_antisymm (Nat.le_sub_one_of_lt hilt) hge
      subst this
      rw [← hiq] at hopt
      exact hopt

theorem arg_fails_required_after_optional (c : Command) (p : Param)
    (hord : paramsOrdered c._params)
    (hopt : ∃ q ∈ c._params, q._required = false) (hreq : p._required = true) :
    exceptIsOk (Command.arg c (Sum.inr p)) = false := by
  obtain ⟨q, hq, hqopt⟩ := hopt
  obtain ⟨lst, hlast, hlopt⟩ := paramsOrdered_getLast_optional c._params hord q hq hqopt
  unfold Command.arg
  by_cases h1 : (c._flags.any fun flag => flag._name == argName (Sum.inr p)) = true
  · rw [if_pos h1]; rfl
  · rw [if_neg h1]
    by_cases h2 : (c._params.any fun pp => pp._name == argName (Sum.inr p)) = true
    · rw [if_pos h2]; rfl
    · rw [if_neg h2]
      dsimp only
      have hcond : (p._required && (match c._params.getLast? with
                    | some qq => qq.is_optional
                    | Option.none => false)) = true := by
        rw [hreq, hlast]
        dsimp only
        rw [Param.is_optional, hlopt]
        rfl
      rw [if_pos hcond]
      rfl

theorem arg_preserves_ordered (c : Command) (a : Flag ⊕ Param) (c' : Command)
    (h : Command.arg c a = .ok c') (hord : paramsOrdered c._params) :
    paramsOrdered c'._params := by
  unfold Command.arg at h
  by_cases h1 : (c._flags.any fun flag => flag._name == argName a) = true
  · rw [if_pos h1] at h; cases h
  · rw [if_neg h1] at h
    by_cases h2 : (c._params.any fun pp => pp._name == argName a) = true
    · rw [if_pos h2] at h; cases h
    · rw [if_neg h2] at h
      cases a with
      | inl flag =>
        dsimp only at h
        by_cases h3 : (flag._short.length + flag._long.length == 0) = true
        · rw [if_pos h3] at h; cases h
        · rw [if_neg h3] at h
          injection h with h
          rw [← h]
          exact hord
      | inr p =>
        dsimp only at h
        by_cases h3 : (p._required && (match c._params.getLast? with
                        | some qq => qq.is_optional
                        | Option.none => false)) = true
        · rw [if_pos h3] at h; cases h
        · rw [if_neg h3] at h
          injection h with h
          rw [← h]
          show paramsOrdered (c._params ++ [p])
          rw [paramsOrdered, List.pairwise_append]
          refine ⟨hord, List.pairwise_singleton _ _, ?_⟩
          intro q hq p' hp'
          rcases List.mem_singleton.mp hp' with rfl
          intro hqopt
          by_cases hp : p'._required = true
      -- if p' required, the last-param check would have failed
          · exfalso
            obtain ⟨lst, hlast, hlopt⟩ :=
              paramsOrdered_getLast_optional c._params hord q hq hqopt
            apply h3
            rw [hp, hlast]
            dsimp only
            rw [Param.is_optional, hlopt]
            rfl
          · exact Bool.eq_false_iff.mpr hp

theorem foldArg_ordered (items : List (Flag ⊕ Param)) : ∀ (c0 c : Command),
    paramsOrdered c0._params → List.foldlM Command.arg c0 items = .ok c →
    paramsOrdered c._params := by
  induction items with
  | nil =>
    intro c0 c h0 h
    simp only [List.foldlM_nil] at h
    injection h with h
    rw [← h]
    exact h0
  | cons a items ih =>
    intro c0 c h0 h
    simp only [List.foldlM_cons] at h
    cases ha : Command.arg c0 a with
    | error e =>
      rw [ha] at h
      have hbad : (Except.error e : Except SpecErr Command) = .ok c := h
      cases hbad
    | ok c1 =>
      rw [ha] at h
      have h2 : List.foldlM Command.arg c1 items = .ok c := h
      exact ih c1 c (arg_preserves_ordered c0 a c1 ha h0) h2

theorem init_params_nil (name : String) (desc : Option String) (c0 : Command)
    (h : Command.init name desc = .ok c0) : c0._params = [] := by
  unfold Command.init at h
  by_cases hc : (pyStrip name).data.isEmpty = true
  · rw [if_pos hc] at h; cases h
  · rw [if_neg hc] at h
    injection h with h
    rw [← h]

/-- C3: on every successful `parse_args` run over a well-formed selected
command, the result holds exactly one entry per declared Flag and Param
(duplicate-free keys, and a key exists iff it is a declared name); the
command tag is the selected command's name; and, relative to the state the
scanning loop ended in: the required-positional and required-flags checks
had passed before defaults were stored, every optional Param/Flag with no
recorded value ends with its declared default, and every value recorded
during scanning survives unchanged into the result. -/
theorem parse_args_result_entries
    (cmds : List Command) (tok0 : String) (rest : List String)
    (command : Command) (args : Args)
    (hfind : _find_command cmds tok0 = some command)
    (hwf : Command.wf command)
    (hok : parse_args cmds (tok0 :: rest) = .ok args) :
    ((args._values.map Prod.fst).Nodup
     ∧ (∀ n, hasattr args._values n = true ↔ n ∈ declaredNames command)
     ∧ args._command = command._name)
    ∧ ∀ st, parseLoop command (tok0 :: rest) (tok0 :: rest).length (initState command) = .ok st →
        (st.requiredFlags = []
         ∧ (∀ q, command._params.get? st.paramIdx = some q → q._required = false)
         ∧ (∀ p ∈ command._params, p._required = false → hasattr st.values p._name = false →
              lookupVal args._values p._name = some p._default)
         ∧ (∀ f ∈ command._flags, f._required = false → hasattr st.values f._name = false →
              lookupVal args._values f._name = some f._default)
         ∧ (∀ n v, lookupVal st.values n = some v → lookupVal args._values n = some v)) := by
  obtain ⟨hndecl, hord⟩ := hwf
  simp only [parse_args] at hok
  rw [hfind] at hok
  dsimp only at hok
  cases hloop : parseLoop command (tok0 :: rest) (tok0 :: rest).length (initState command) with
  | error e => rw [hloop] at hok; cases hok
  | ok st =>
    rw [hloop] at hok
    dsimp only at hok
    have hinv : Inv command st := parseLoop_inv _ _ _ _ _ hloop (Inv_initState command)
    obtain ⟨hnd, hkeys, hreq, hle, hpos⟩ := hinv
    have hcf : (∀ q, command._params.get? st.paramIdx = some q → q._required = false)
        ∧ finishParse command st = .ok args := by
      cases hp : command._params.get? st.paramIdx with
      | some p =>
        rw [hp] at hok
        dsimp only at hok
        by_cases hr : p._required = true
        · rw [if_pos hr] at hok
          cases hok
        · rw [if_neg hr] at hok
          refine ⟨fun q hq => ?_, hok⟩
          injection hq with hq2
          subst hq2
          exact Bool.eq_false_iff.mpr hr
      | none =>
        rw [hp] at hok
        refine ⟨fun q hq => ?_, hok⟩
        cases hq
    obtain ⟨hcheck, hfin⟩ := hcf
    simp only [finishParse] at hfin
    by_cases hemp : st.requiredFlags.isEmpty = true
    swap
    · rw [if_neg hemp] at hfin
      cases hfin
    rw [if_pos hemp] at hfin
    injection hfin with hfin
    have hargs : args
        = ⟨command._name, fillFlagDefaults (fillParamDefaults st.values command._params) command._flags⟩ :=
      hfin.symm
    subst hargs
    have hrfnil : st.requiredFlags = [] := by
      cases hrf : st.requiredFlags with
      | nil => rfl
      | cons x xs => rw [hrf] at hemp; cases hemp
    -- name-distinctness facts from wf
    have hsplit := List.nodup_append.mp hndecl
    have hflagsND : (command._flags.map (fun f => f._name)).Nodup := hsplit.1
    have hparamsND : (command._params.map (fun p => p._name)).Nodup := hsplit.2.1
    have hdisj : ∀ n, n ∈ command._flags.map (fun f => f._name) →
        n ∈ command._params.map (fun p => p._name) → False := by
      intro n h1 h2
      exact hsplit.2.2 h1 h2
    -- abbreviations for the two default lists
    have hPmap : ((command._params.map fun p => (p._name, p.is_optional, p._default)).map Prod.fst)
        = command._params.map (fun p => p._name) := by
      rw [List.map_map]
      rfl
    have hFmap : ((command._flags.map fun f => (f._name, f.is_optional, f._default)).map Prod.fst)
        = command._flags.map (fun f => f._name) := by
      rw [List.map_map]
      rfl
    rw [fillParamDefaults_eq, fillFlagDefaults_eq]
    -- required items are recorded in the loop state
    have hreqflag : ∀ f ∈ command._flags, f._required = true → hasattr st.values f._name = true := by
      intro f hf hfr
      rcases hreq f hf hfr with h1 | h1
      · rw [hrfnil] at h1; cases h1
      · exact h1
    have hreqparam : ∀ p ∈ command._params, p._required = true →
        hasattr st.values p._name = true := by
      intro p hp hpr
      obtain ⟨j, hj⟩ := List.mem_iff_get?.mp hp
      have hjlt : j < command._params.length := by
        by_contra hge
        rw [List.get?_eq_none.mpr (Nat.le_of_not_lt hge)] at hj
        cases hj
      rcases Nat.lt_or_ge j st.paramIdx with hlt | hge
      · exact hpos j p hlt hj
      · exfalso
        rcases Nat.lt_or_ge st.paramIdx command._params.length with hplt | hple
        · have hp0 : command._params.get? st.paramIdx
              = some (command._params.get ⟨st.paramIdx, hplt⟩) := List.get?_eq_get hplt
          have hp0opt := hcheck _ hp0
          have hjget : command._params.get ⟨j, hjlt⟩ = p := by
            rw [List.get?_eq_get hjlt] at hj
            exact Option.some.inj hj
          rcases Nat.lt_or_ge st.paramIdx j with hlt2 | hge2
          · have hP := (List.pairwise_iff_get.mp hord) ⟨st.paramIdx, hplt⟩ ⟨j, hjlt⟩ hlt2
            have hpopt : p._required = false := by
              rw [← hjget]
              exact hP hp0opt
            rw [hpr] at hpopt
            cases hpopt
          · have heq : st.paramIdx = j := Nat.le_antisymm hge hge2
            have : p._required = false := by
              rw [← hjget]
              have : command._params.get ⟨st.paramIdx, hplt⟩ = command._params.get ⟨j, hjlt⟩ := by
                congr 1
                exact Fin.ext heq
              rw [← this]
              exact hp0opt
            rw [hpr] at this
            cases this
        · exact absurd (Nat.lt_of_lt_of_le hjlt hple) (Nat.not_lt.mpr hge)
    refine ⟨⟨?_, ?_, rfl⟩, ?_⟩
    · -- nodup keys
      exact fillG_nodup _ _ (fillG_nodup _ _ hnd)
    · -- key present iff declared
      intro n
      constructor
      · intro hn
        rcases fillG_keys _ _ _ hn with hn1 | ⟨d, hd, rfl⟩
        · rcases fillG_keys _ _ _ hn1 with hn2 | ⟨d, hd, rfl⟩
          · exact hkeys _ hn2
          · obtain ⟨p, hp, rfl⟩ := List.mem_map.mp hd
            exact List.mem_append_right _ (List.mem_map.mpr ⟨p, hp, rfl⟩)
        · obtain ⟨f, hf, rfl⟩ := List.mem_map.mp hd
          exact List.mem_append_left _ (List.mem_map.mpr ⟨f, hf, rfl⟩)
      · intro hn
        rcases List.mem_append.mp hn with hn1 | hn1
        · obtain ⟨f, hf, rfl⟩ := List.mem_map.mp hn1
          by_cases hfr : f._required = true
          · exact fillG_hasattr_mono _ _ _ (fillG_hasattr_mono _ _ _ (hreqflag f hf hfr))
          · have hfo : f.is_optional = true := by
              rw [Flag.is_optional, Bool.eq_false_iff.mpr hfr]
              rfl
            exact fillG_has_opt _ _ (f._name, f.is_optional, f._default)
              (List.mem_map.mpr ⟨f, hf, rfl⟩) hfo
        · obtain ⟨p, hp, rfl⟩ := List.mem_map.mp hn1
          by_cases hpr : p._required = true
          · exact fillG_hasattr_mono _ _ _ (fillG_hasattr_mono _ _ _ (hreqparam p hp hpr))
          · have hpo : p.is_optional = true := by
              rw [Param.is_optional, Bool.eq_false_iff.mpr hpr]
              rfl
            exact fillG_hasattr_mono _ _ _
              (fillG_has_opt _ _ (p._name, p.is_optional, p._default)
                (List.mem_map.mpr ⟨p, hp, rfl⟩) hpo)
    · -- the loop-state–relative conjuncts
      intro st' hloop'
      injection hloop' with hst
      subst hst
      refine ⟨hrfnil, hcheck, ?_, ?_, ?_⟩
      · -- optional params missing from the loop state get their defaults
        intro p hp hpr hnothas
        have hpo : p.is_optional = true := by
          rw [Param.is_optional, hpr]
          rfl
        have hndP : ((command._params.map fun p => (p._name, p.is_optional, p._default)).map Prod.fst).Nodup := by
          rw [hPmap]
          exact hparamsND
        have hinner : lookupVal
            (fillDefaultsG st.values (command._params.map fun p => (p._name, p.is_optional, p._default)))
            p._name = some p._default :=
          fillG_lookup_default _ _ (p._name, p.is_optional, p._default) hndP
            (List.mem_map.mpr ⟨p, hp, rfl⟩) hpo hnothas
        have hhas : hasattr
            (fillDefaultsG st.values (command._params.map fun p => (p._name, p.is_optional, p._default)))
            p._name = true := hasattr_of_lookupVal_some _ _ _ hinner
        rw [fillG_lookup_preserved _ _ _ hhas]
        exact hinner
      · -- optional flags missing from the loop state get their defaults
        intro f hf hfr hnothas
        have hfo : f.is_optional = true := by
          rw [Flag.is_optional, hfr]
          rfl
        have hnmem : ∀ d ∈ (command._params.map fun p => (p._name, p.is_optional, p._default)),
            d.1 ≠ f._name := by
          intro d hd heq
          obtain ⟨p, hp, rfl⟩ := List.mem_map.mp hd
          exact hdisj f._name (List.mem_map.mpr ⟨f, hf, rfl⟩)
            (heq ▸ List.mem_map.mpr ⟨p, hp, rfl⟩)
        have hstill : hasattr
            (fillDefaultsG st.values (command._params.map fun p => (p._name, p.is_optional, p._default)))
            f._name = false := by
          rw [fillG_hasattr_not_mem _ _ _ hnmem]
          exact hnothas
        have hndF : ((command._flags.map fun f => (f._name, f.is_optional, f._default)).map Prod.fst).Nodup := by
          rw [hFmap]
          exact hflagsND
        exact fillG_lookup_default _ _ (f._name, f.is_optional, f._default) hndF
          (List.mem_map.mpr ⟨f, hf, rfl⟩) hfo hstill
      · -- values recorded during the scan survive into the result
        intro n v hv
        have hhas : hasattr st.values n = true := hasattr_of_lookupVal_some _ _ _ hv
        rw [fillG_lookup_preserved _ _ _ (fillG_hasattr_mono _ _ _ hhas),
            fillG_lookup_preserved _ _ _ hhas]
        exact hv

/-! ## Command lookup (C2) -/

/-- C2: the first token selects exactly the first command (in declaration
order) matching the spec's predicate — disable_name-guarded
case-insensitive name equality, or exact alias equality — and when no
command matches, `parse_args` fails with the unknown-command error. -/
theorem find_command_spec :
    (∀ (cmds : List Command) (tok : String),
        _find_command cmds tok = cmds.find? (fun c => decide (specCmdMatches tok c)))
    ∧ (∀ (cmds : List Command) (tok : String) (rest : List String),
        _find_command cmds tok = Option.none →
        parse_args cmds (tok :: rest) = .error (.err (.unknownCommand tok))) := by
  constructor
  · intro cmds tok
    induction cmds with
    | nil => rfl
    | cons c cmds ih =>
      simp only [_find_command]
      by_cases h1 : (!c._disable_name && pyLower tok == pyLower c._name) = true
      · rw [if_pos h1, List.find?_cons_of_pos]
        apply decide_eq_true
        rw [Bool.and_eq_true] at h1
        left
        refine ⟨?_, ?_⟩
        · have := h1.1
          cases hb : c._disable_name
          · rfl
          · rw [hb] at this; cases this
        · exact eq_of_beq h1.2
      · rw [if_neg h1]
        by_cases h2 : (c._short.any fun s => s == tok) = true
        · rw [if_pos h2, List.find?_cons_of_pos]
          apply decide_eq_true
          exact Or.inr (Or.inl (List.any_beq'.mp h2))
        · rw [if_neg h2]
          by_cases h3 : (c._long.any fun l => l == tok) = true
          · rw [if_pos h3, List.find?_cons_of_pos]
            apply decide_eq_true
            exact Or.inr (Or.inr (List.any_beq'.mp h3))
          · rw [if_neg h3, ih, List.find?_cons_of_neg]
            intro hdec
            rcases of_decide_eq_true hdec with ⟨hd, hl⟩ | hmem | hmem
            · apply h1
              rw [hd]
              simp [hl]
            · exact h2 (List.any_beq'.mpr hmem)
            · exact h3 (List.any_beq'.mpr hmem)
  · intro cmds tok rest h
    simp only [parse_args]
    rw [h]

/-- C6: a failing parse yields no `Args`: whenever `parse_args` returns an
error, no successful result exists for the same input. -/
theorem parse_args_error_no_result (cmds : List Command) (argv : List String) (e : PExn)
    (h : parse_args cmds argv = .error e) :
    ∀ args : Args, parse_args cmds argv ≠ .ok args := by
  intro args hok
  rw [h] at hok
  cases hok

/-! ## Value-kind flags and the outer token sequence (C10, C5, C1) -/

/-- C10: a Value-kind flag given without an inline `=value` consumes the
next token of the sequence unconditionally — whatever that token is, dash
or not — and fails (MissingValue) exactly when the sequence is exhausted;
this holds at the long-flag site and at the short-cluster site. -/
theorem value_flag_consumes_next_token :
    (∀ (command : Command) (argv : List String) (st : PState)
        (arg_value fname : String) (flag : Flag),
        splitEq1 arg_value = (fname, Option.none) →
        _find_long_flag command fname = some flag →
        flag._kind = .value →
        ((∀ h : st.idx < argv.length, flag._parserFn = Option.none →
            hasattr st.values flag._name = false →
            _parse_long command argv st arg_value
              = .ok ⟨st.idx + 1, st.paramIdx,
                     setattr st.values flag._name (.list [.str (argv.get ⟨st.idx, h⟩)]),
                     st.requiredFlags.erase flag._name⟩)
         ∧ (argv.length ≤ st.idx →
             _parse_long command argv st arg_value
               = .error (.err (.missingValue command._name fname)))))
    ∧ (∀ (command : Command) (argv : List String) (st : PState)
        (flag_name : String) (rest : List String) (flag : Flag),
        _find_short_flag command flag_name = some flag →
        flag._kind = .value →
        ((∀ h : st.idx < argv.length, flag._parserFn = Option.none →
            hasattr st.values flag._name = false →
            shortClusterLoop command argv st (flag_name :: rest)
              = shortClusterLoop command argv
                  ⟨st.idx + 1, st.paramIdx,
                   setattr st.values flag._name (.list [.str (argv.get ⟨st.idx, h⟩)]),
                   st.requiredFlags.erase flag._name⟩ rest)
         ∧ (argv.length ≤ st.idx →
             shortClusterLoop command argv st (flag_name :: rest)
               = .error (.err (.missingValue command._name flag_name))))) := by
  constructor
  · intro command argv st arg_value fname flag hsplit hfind hkind
    constructor
    · intro h hpf hhas
      simp only [_parse_long, hsplit, hfind, hkind]
      try dsimp only
      rw [dif_pos h, hpf]
      simp only [applyConv, appendFlagValue, hhas]
      rfl
    · intro hge
      simp only [_parse_long, hsplit, hfind, hkind]
      try dsimp only
      rw [dif_neg (Nat.not_lt.mpr hge)]
      try rfl
  · intro command argv st flag_name rest flag hfind hkind
    constructor
    · intro h hpf hhas
      simp only [shortClusterLoop, hfind, hkind]
      try dsimp only
      rw [dif_pos h, hpf]
      simp only [applyConv, appendFlagValue, hhas]
      rfl
    · intro hge
      simp only [shortClusterLoop, hfind, hkind]
      try dsimp only
      rw [dif_neg (Nat.not_lt.mpr hge)]
      try rfl

/-- C5: at every conversion site (long flag with inline value, long flag
with consumed token, short flag, positional param), a cancellation-type
interrupt raised by the caller-supplied conversion function propagates out
unchanged, while any other exception turns into the InvalidArgument parse
error carrying the underlying cause. -/
theorem conversion_failure_handling :
    (∀ (command : Command) (argv : List String) (st : PState)
        (arg_value fname v0 : String) (flag : Flag) (p : String → ConvRes),
        splitEq1 arg_value = (fname, some v0) →
        _find_long_flag command fname = some flag →
        flag._kind = .value → flag._parserFn = some p →
        ((p v0 = .interrupt →
            _parse_long command argv st arg_value = .error .interrupt)
         ∧ (∀ m, p v0 = .exn m →
            _parse_long command argv st arg_value
              = .error (.err (.invalidArgument command._name fname m)))))
    ∧ (∀ (command : Command) (argv : List String) (st : PState)
        (arg_value fname : String) (flag : Flag) (p : String → ConvRes)
        (h : st.idx < argv.length),
        splitEq1 arg_value = (fname, Option.none) →
        _find_long_flag command fname = some flag →
        flag._kind = .value → flag._parserFn = some p →
        ((p (argv.get ⟨st.idx, h⟩) = .interrupt →
            _parse_long command argv st arg_value = .error .interrupt)
         ∧ (∀ m, p (argv.get ⟨st.idx, h⟩) = .exn m →
            _parse_long command argv st arg_value
              = .error (.err (.invalidArgument command._name fname m)))))
    ∧ (∀ (command : Command) (argv : List String) (st : PState)
        (flag_name : String) (rest : List String) (flag : Flag) (p : String → ConvRes)
        (h : st.idx < argv.length),
        _find_short_flag command flag_name = some flag →
        flag._kind = .value → flag._parserFn = some p →
        ((p (argv.get ⟨st.idx, h⟩) = .interrupt →
            shortClusterLoop command argv st (flag_name :: rest) = .error .interrupt)
         ∧ (∀ m, p (argv.get ⟨st.idx, h⟩) = .exn m →
            shortClusterLoop command argv st (flag_name :: rest)
              = .error (.err (.invalidArgument command._name flag_name m)))))
    ∧ (∀ (command : Command) (argv : List String) (st : PState)
        (fuel : Nat) (param : Param) (p : String → ConvRes) (h : st.idx < argv.length),
        pyStartsWith (argv.get ⟨st.idx, h⟩) "--" = false →
        pyStartsWith (argv.get ⟨st.idx, h⟩) "-" = false →
        command._params.get? st.paramIdx = some param →
        param._parserFn = some p →
        ((p (argv.get ⟨st.idx, h⟩) = .interrupt →
            parseLoop command argv (fuel + 1) st = .error .interrupt)
         ∧ (∀ m, p (argv.get ⟨st.idx, h⟩) = .exn m →
            parseLoop command argv (fuel + 1) st
              = .error (.err (.invalidArgument command._name (argv.get ⟨st.idx, h⟩) m))))) := by
  refine ⟨?_, ?_, ?_, ?_⟩
  · intro command argv st arg_value fname v0 flag p hsplit hfind hkind hpf
    constructor
    · intro hint
      simp only [_parse_long, hsplit, hfind, hkind, hpf]
      simp only [applyConv, hint]
      try rfl
    · intro m hexn
      simp only [_parse_long, hsplit, hfind, hkind, hpf]
      simp only [applyConv, hexn]
      try rfl
  · intro command argv st arg_value fname flag p h hsplit hfind hkind hpf
    constructor
    · intro hint
      simp only [_parse_long, hsplit, hfind, hkind]
      try dsimp only
      rw [dif_pos h, hpf]
      simp only [applyConv, hint]
      try rfl
    · intro m hexn
      simp only [_parse_long, hsplit, hfind, hkind]
      try dsimp only
      rw [dif_pos h, hpf]
      simp only [applyConv, hexn]
      try rfl
  · intro command argv st flag_name rest flag p h hfind hkind hpf
    constructor
    · intro hint
      simp only [shortClusterLoop, hfind, hkind]
      try dsimp only
      rw [dif_pos h, hpf]
      simp only [applyConv, hint]
      try rfl
    · intro m hexn
      simp only [shortClusterLoop, hfind, hkind]
      try dsimp only
      rw [dif_pos h, hpf]
      simp only [applyConv, hexn]
      try rfl
  · intro command argv st fuel param p h hdd hd hp hpf
    constructor
    · intro hint
      simp only [parseLoop]
      rw [dif_pos h, if_neg (show ¬(pyStartsWith (argv.get ⟨st.idx, h⟩) "--" = true) by
            rw [hdd]; intro hh; cases hh),
          if_neg (show ¬(pyStartsWith (argv.get ⟨st.idx, h⟩) "-" = true) by
            rw [hd]; intro hh; cases hh)]
      try dsimp only
      rw [hp]
      try dsimp only
      rw [hpf]
      simp only [applyConv, hint]
      try rfl
    · intro m hexn
      simp only [parseLoop]
      rw [dif_pos h, if_neg (show ¬(pyStartsWith (argv.get ⟨st.idx, h⟩) "--" = true) by
            rw [hdd]; intro hh; cases hh),
          if_neg (show ¬(pyStartsWith (argv.get ⟨st.idx, h⟩) "-" = true) by
            rw [hd]; intro hh; cases hh)]
      try dsimp only
      rw [hp]
      try dsimp only
      rw [hpf]
      simp only [applyConv, hexn]
      try rfl

/-- C1 (amended): inside a short-flag cluster, a Value-kind flag consumes
the next token of the OUTER sequence as its value (never the remaining
characters of the cluster), and the remaining characters of the cluster
continue to be processed as short flags — they are not skipped. -/
theorem short_cluster_value_step
    (command : Command) (argv : List String) (st : PState) (flag_name : String)
    (rest : List String) (flag : Flag)
    (hfind : _find_short_flag command flag_name = some flag)
    (hkind : flag._kind = .value)
    (hpf : flag._parserFn = Option.none)
    (hhas : hasattr st.values flag._name = false)
    (h : st.idx < argv.length) :
    shortClusterLoop command argv st (flag_name :: rest)
      = shortClusterLoop command argv
          ⟨st.idx + 1, st.paramIdx,
           setattr st.values flag._name (.list [.str (argv.get ⟨st.idx, h⟩)]),
           st.requiredFlags.erase flag._name⟩ rest := by
  simp only [shortClusterLoop, hfind, hkind]
  try dsimp only
  rw [dif_pos h, hpf]
  simp only [applyConv, appendFlagValue, hhas]
  rfl

/-! ## Remaining claim theorems -/

/-- C1 (counterexample): in `parse [c, "-ov", "X"]` with `-o` Value-kind
and `-v` Count-kind, the cluster character after the Value-kind flag is
NOT skipped: `v` ends up counted to 1 (its declared default is `None`),
while `o` consumed the next top-level token `"X"`. -/
theorem cluster_chars_after_value_flag_processed :
    parse_args [cmdOV] ["c", "-ov", "X"]
      = .ok { _command := "c",
              _values := [("o", Value.list [Value.str "X"]), ("v", Value.int 1)] }
    ∧ vFlag._default = Value.none
    ∧ Value.int 1 ≠ Value.none := by
  refine ⟨rfl, rfl, ?_⟩
  intro h
  cases h

theorem short_cluster_value_step_witness :
    shortClusterLoop cmdOV ["c", "-ov", "X"] ⟨2, 0, [], []⟩ ["-o", "-v"]
      = shortClusterLoop cmdOV ["c", "-ov", "X"]
          ⟨3, 0, [("o", Value.list [Value.str "X"])], []⟩ ["-v"] :=
  short_cluster_value_step cmdOV ["c", "-ov", "X"] ⟨2, 0, [], []⟩ "-o" ["-v"] oFlag
    rfl rfl rfl rfl (by decide)

theorem find_command_spec_witness :
    parse_args [cmdOV] ["zzz"] = .error (.err (.unknownCommand "zzz")) :=
  find_command_spec.2 [cmdOV] "zzz" [] rfl

theorem value_flag_consumes_next_token_witness :
    _parse_long cmdOV ["--output", "-q"] ⟨1, 0, [], []⟩ "--output"
      = .ok ⟨2, 0, [("o", Value.list [Value.str "-q"])], []⟩
    ∧ _parse_long cmdOV ["--output"] ⟨1, 0, [], []⟩ "--output"
      = .error (.err (.missingValue "c" "--output")) := by
  constructor
  · exact (value_flag_consumes_next_token.1 cmdOV ["--output", "-q"] ⟨1, 0, [], []⟩
      "--output" "--output" oFlag rfl rfl rfl).1 (by decide) rfl rfl
  · exact (value_flag_consumes_next_token.1 cmdOV ["--output"] ⟨1, 0, [], []⟩
      "--output" "--output" oFlag rfl rfl rfl).2 (by decide)

theorem parse_args_result_entries_witness :
    hasattr (Args.mk "c" [("o", Value.list [Value.str "X"]), ("v", Value.int 1)])._values "v"
      = true :=
  ((parse_args_result_entries [cmdOV] "c" ["-ov", "X"] cmdOV
      ⟨"c", [("o", Value.list [Value.str "X"]), ("v", Value.int 1)]⟩
      rfl ⟨by decide, List.Pairwise.nil⟩ rfl).1.2.1 "v").mpr (by decide)

/-- C4: once an optional Param is present on a (well-ordered) Command,
adding a required Param via `Command.arg` fails; and any command built by
`Command.init` followed by a sequence of `arg` calls has its required
params before all optional ones. -/
theorem optional_param_ordering :
    (∀ (c : Command) (p : Param),
        paramsOrdered c._params → (∃ q ∈ c._params, q._required = false) →
        p._required = true → exceptIsOk (Command.arg c (Sum.inr p)) = false)
    ∧ (∀ (name : String) (desc : Option String) (c0 c : Command)
        (items : List (Flag ⊕ Param)),
        Command.init name desc = .ok c0 →
        List.foldlM Command.arg c0 items = .ok c →
        paramsOrdered c._params) := by
  constructor
  · exact arg_fails_required_after_optional
  · intro name desc c0 c items hinit hfold
    have h0 : paramsOrdered c0._params := by
      rw [init_params_nil name desc c0 hinit]
      exact List.Pairwise.nil
    exact foldArg_ordered items c0 c h0 hfold

theorem optional_param_ordering_witness :
    exceptIsOk (Command.arg cmdP (Sum.inr pReq)) = false ∧ paramsOrdered cRes._params := by
  constructor
  · exact optional_param_ordering.1 cmdP pReq
      (List.Pairwise.cons (fun b hb => absurd hb (List.not_mem_nil b)) List.Pairwise.nil)
      ⟨pOpt, List.mem_cons_self pOpt [], rfl⟩ rfl
  · exact optional_param_ordering.2 "x" Option.none c0x cRes
      [Sum.inr pReq, Sum.inr pOpt] rfl rfl

theorem conversion_failure_handling_witness :
    _parse_long cmdInt [] ⟨0, 0, [], []⟩ "--output=z" = .error .interrupt
    ∧ _parse_long cmdFail [] ⟨0, 0, [], []⟩ "--output=z"
        = .error (.err (.invalidArgument "c" "--output" "boom")) := by
  constructor
  · exact (conversion_failure_handling.1 cmdInt [] ⟨0, 0, [], []⟩ "--output=z" "--output" "z"
      oFlagInt convInterrupt rfl rfl rfl rfl).1 rfl
  · exact (conversion_failure_handling.1 cmdFail [] ⟨0, 0, [], []⟩ "--output=z" "--output" "z"
      oFlagFail convFail rfl rfl rfl rfl).2 "boom" rfl

theorem parse_args_error_no_result_witness :
    parse_args ([] : List Command) ["x"] ≠ .ok ⟨"x", []⟩ :=
  parse_args_error_no_result [] ["x"] (.err (.unknownCommand "x")) rfl ⟨"x", []⟩

/-- C7 (counterexample): `Command.long` accepts the bare `"--"` — a string
that starts with two dashes but has total length 2, not greater than 2 —
because, unlike `Flag.long`, it performs no length check. -/
theorem command_long_accepts_bare_dashes :
    Command.long cmdOV "--" = .ok { cmdOV with _long := ["--"] }
    ∧ pyStartsWith (pyStrip "--") "--" = true
    ∧ ¬(2 < (pyStrip "--").length) := ⟨rfl, rfl, by decide⟩

/-- C7 (amended): `Flag.long l` succeeds iff the trimmed string starts
with `--` and its length is not 2 (given the prefix, the same as length
greater than 2); `Command.long l` succeeds iff the trimmed string starts
with `--`, with no length requirement at all. -/
theorem long_builder_validation :
    (∀ (c : Command) (l : String),
        exceptIsOk (Command.long c l) = pyStartsWith (pyStrip l) "--")
    ∧ (∀ (f : Flag) (n : String),
        exceptIsOk (Flag.long f n)
          = (pyStartsWith (pyStrip n) "--" && !((pyStrip n).length == 2))) := by
  constructor
  · intro c l
    simp only [Command.long]
    by_cases hs : pyStartsWith (pyStrip l) "--" = true
    · have hns : (!(pyStartsWith (pyStrip l) "--")) = false := by rw [hs]; rfl
      rw [if_neg (by rw [hns]; intro hh; cases hh), hs]
      rfl
    · have hf : pyStartsWith (pyStrip l) "--" = false := Bool.eq_false_iff.mpr hs
      have hns : (!(pyStartsWith (pyStrip l) "--")) = true := by rw [hf]; rfl
      rw [if_pos hns, hf]
      rfl
  · intro f n
    simp only [Flag.long]
    by_cases hs : pyStartsWith (pyStrip n) "--" = true
    · have hns : (!(pyStartsWith (pyStrip n) "--")) = false := by rw [hs]; rfl
      rw [if_neg (by rw [hns]; intro hh; cases hh)]
      by_cases hl : ((pyStrip n).length == 2) = true
      · rw [if_pos hl, hs, hl]
        rfl
      · have hlf : ((pyStrip n).length == 2) = false := Bool.eq_false_iff.mpr hl
        rw [if_neg hl, hs, hlf]
        rfl
    · have hf : pyStartsWith (pyStrip n) "--" = false := Bool.eq_false_iff.mpr hs
      have hns : (!(pyStartsWith (pyStrip n) "--")) = true := by rw [hf]; rfl
      rw [if_pos hns, hf]
      rfl

/-- C8 (counterexample): `Command(" x")` succeeds (the name strips to a
non-empty string) but stores the name UNTRIMMED: the stored name `" x"`
differs from the trimmed `"x"`. -/
theorem command_init_stores_untrimmed :
    Command.init " x" Option.none
      = .ok { _name := " x", _description := Option.none, _short := [], _long := [],
              _disable_name := false, _flags := [], _params := [] }
    ∧ pyStrip " x" = "x"
    ∧ (" x" : String) ≠ "x" := ⟨rfl, by decide, by decide⟩

/-- C8 (amended): `Command(name, desc)` fails iff the name is empty after
trimming; on success the stored name is the ORIGINAL string, unmodified
(not the trimmed one). -/
theorem command_init_validation :
    (∀ (name : String) (desc : Option String),
        exceptIsOk (Command.init name desc) = !(pyStrip name).data.isEmpty)
    ∧ (∀ (name : String) (desc : Option String) (c : Command),
        Command.init name desc = .ok c → c._name = name) := by
  constructor
  · intro name desc
    simp only [Command.init]
    by_cases he : (pyStrip name).data.isEmpty = true
    · rw [if_pos he, he]
      rfl
    · have hf : (pyStrip name).data.isEmpty = false := Bool.eq_false_iff.mpr he
      rw [if_neg he, hf]
      rfl
  · intro name desc c h
    simp only [Command.init] at h
    by_cases he : (pyStrip name).data.isEmpty = true
    · rw [if_pos he] at h
      cases h
    · rw [if_neg he] at h
      injection h with h
      rw [← h]

theorem command_init_validation_witness :
    ({ _name := " x", _description := Option.none, _short := [], _long := [],
       _disable_name := false, _flags := [], _params := [] } : Command)._name = " x" :=
  command_init_validation.2 " x" Option.none _ rfl

/-- C9 (code-bug evidence): the help Flags block for a flag with the
truthy declared default `"out.txt"` prints the LITERAL placeholder text
`(default {default!r})` — line 559 of `src/cli.py` lacks the f-string
prefix — instead of showing the declared default value. -/
theorem flags_block_prints_literal_default_placeholder :
    flagsBlockLines cmdOut
      = ["  [-o, --output] the output file path (default \x7bdefault!r\x7d)"] := rfl

end Cli
